import Mathlib

/-!
Verification of the csv2latex-table converter.

The definitions below are a shallow embedding of the Python source file
src/csv2latex-table.py.  Cells are Lean strings; Python truthiness of a
string becomes a nonemptiness test; list indexing becomes List.getD; the
file reads, writes and prints of csv_to_latex_table are abstracted into
explicit Except-valued parameters and a returned message list.
-/

namespace Csv2Latex

/-- Blankness test used throughout process_header_row: the source writes
the Python condition cell and cell != the em-dash marker, which holds iff
the string is nonempty and differs from the marker. -/
def isPopulated (c : String) : Bool :=
  !(c == ("")) && !(c == ("\\textemdash"))

/-- Map a cell to itself when populated and to the empty string otherwise;
this is the shape of the list that process_header_row returns. -/
def blankToEmpty (c : String) : String :=
  if isPopulated c then c else ("")

/-- Embedding of Python str.strip(): drop leading and trailing whitespace
characters. (Python also strips a few rarer whitespace code points; none
of the sentinel comparisons in the source depend on those.) -/
def pyStrip (s : String) : String :=
  String.mk (((s.data.dropWhile Char.isWhitespace).reverse.dropWhile
      Char.isWhitespace).reverse)

/-- True when the first list is an initial segment of the second. -/
def startsWithList : List Char → List Char → Bool
  | [], _ => true
  | _ :: _, [] => false
  | p :: ps, c :: cs => p == c && startsWithList ps cs

/-- Worker for pyReplace.  Replaces occurrences of pat left to right,
non-overlapping, exactly as Python str.replace does for a nonempty
pattern.  The fuel argument only serves structural recursion; a call
with fuel equal to the length of the text never exhausts it. -/
def pyReplaceAux (pat repl : List Char) : Nat → List Char → List Char
  | _, [] => []
  | 0, s => s
  | Nat.succ fuel, c :: rest =>
    if startsWithList pat (c :: rest) && !pat.isEmpty then
      repl ++ pyReplaceAux pat repl fuel (List.drop pat.length (c :: rest))
    else
      c :: pyReplaceAux pat repl fuel rest

/-- Embedding of Python s.replace(pat, repl) for nonempty pat (every
pattern in the source table is a single character; an empty pattern is
never passed and is treated as the identity here). -/
def pyReplace (s pat repl : String) : String :=
  String.mk (pyReplaceAux pat.data repl.data s.data.length s.data)

/-- Sentinel values recognised as missing data, from line 22 of the
source. -/
def sentinels : List String :=
  ["", "NA", "N/A", "NaN", "None", "\\", "//", "---", "_"]

/-- Ordered replacement table of escape_latex, lines 30 to 45 of the
source. -/
def replacements : List (String × String) :=
  [ ("\\", "\\textbackslash\x7b\x7d")
  , ("&", "\\&")
  , ("%", "\\%")
  , ("$", "\\$")
  , ("#", "\\#")
  , ("_", "\\_")
  , ("\x7b", "\\\x7b")
  , ("\x7d", "\\\x7d")
  , ("~", "\\textasciitilde\x7b\x7d")
  , ("^", "\\textasciicircum\x7b\x7d")
  , ("<", "\\textless\x7b\x7d")
  , (">", "\\textgreater\x7b\x7d")
  , ("[", "\x7b[\x7d")
  , ("]", "\x7b]\x7d") ]

/-- Embedding of escape_latex, lines 16 to 49 of the source.  The input
is already a string (the str coercion of the source is the identity on
the CSV cells this program feeds it). -/
def escape_latex (s : String) : String :=
  if pyStrip s ∈ sentinels then ("\\textemdash")
  else if pyStrip s = ("/") then ("/")
  else replacements.foldl (fun acc pr => pyReplace acc pr.1 pr.2) s

/-- Embedding of the scan of lines 64 to 74 of the source: walk the row
carrying the index of the open blank run if any, closing a run when a
populated cell appears and closing a still-open run at the end of the
row at index n - 1 (the index argument equals n when the list is
exhausted). -/
def findRuns : List String → Nat → Option Nat → List (Nat × Nat)
  | [], _, none => []
  | [], i, some s => [(s, i - 1)]
  | c :: rest, i, st =>
    if isPopulated c then
      match st with
      | some s => (s, i - 1) :: findRuns rest (i + 1) none
      | none => findRuns rest (i + 1) none
    else
      match st with
      | none => findRuns rest (i + 1) (some i)
      | some s => findRuns rest (i + 1) (some s)

/-- Embedding of the condition of line 83 of the source: the previous row
exists, is nonempty, has a cell at index i, and that cell is populated. -/
def prevHasContent : Option (List String) → Nat → Bool
  | none, _ => false
  | some p, i => !p.isEmpty && decide (i < p.length) && isPopulated (p.getD i (""))

/-- The partial separator string built on line 91 of the source. -/
def cmidStr (s e : Nat) : String :=
  ("\\cmidrule(lr)\x7b") ++ toString (s + 1) ++ ("-") ++ toString (e + 1) ++ ("\x7d\n")

/-- Test of line 80 and line 88 of the source: index i lies inside the
closed interval r. -/
def insideRange (i : Nat) (r : Nat × Nat) : Bool :=
  decide (r.1 ≤ i) && decide (i ≤ r.2)

/-- Embedding of the cell loop of lines 77 to 95 of the source. -/
def processCells (sr : List (Nat × Nat)) (prev : Option (List String)) :
    Nat → List String → List String
  | _, [] => []
  | i, c :: rest =>
    if isPopulated c then
      if sr.any (insideRange i) && !prevHasContent prev i then
        match sr.find? (insideRange i) with
        | some r => cmidStr r.1 r.2 :: c :: processCells sr prev (i + 1) rest
        | none => c :: processCells sr prev (i + 1) rest
      else c :: processCells sr prev (i + 1) rest
    else ("") :: processCells sr prev (i + 1) rest

/-- Embedding of process_header_row, lines 51 to 97 of the source. -/
def process_header_row (row : List String) (prev : Option (List String)) :
    List String :=
  processCells (findRuns row 0 none) prev 0 row

/-- Embedding of the header loop of lines 153 to 157 of the source: each
header row is escaped and then formatted, and the previously FORMATTED
row is threaded as the prev argument, exactly as the source does. -/
def headerRowsAux : List (List String) → Option (List String) → List (List String)
  | [], _ => []
  | r :: rest, prev =>
    let e := r.map escape_latex
    let h := process_header_row e prev
    h :: headerRowsAux rest (some h)

/-- Header rows produced by the assembler for the first header_lines rows
of the table. -/
def headerRows (data : List (List String)) (header_lines : Nat) :
    List (List String) :=
  headerRowsAux (data.take header_lines) none

/-- Modelled from the words of the spec for the refinement claim about
the assembler: each header row is formatted using the previous row in
ESCAPED form, not its formatted form, as the prev argument. -/
def headerRowsSpecAux : List (List String) → Option (List String) → List (List String)
  | [], _ => []
  | r :: rest, prev =>
    let e := r.map escape_latex
    process_header_row e prev :: headerRowsSpecAux rest (some e)

/-- Spec-worded header assembly, to be compared with headerRows. -/
def headerRowsSpec (data : List (List String)) (header_lines : Nat) :
    List (List String) :=
  headerRowsSpecAux (data.take header_lines) none

/-- Embedding of line 140 of the source: the maximum row length of the
table.  Python max raises on an empty sequence; the code only reaches
this line with nonempty data, and the theorems carry that hypothesis. -/
def ncolsOf : List (List String) → Nat
  | [] => 0
  | r :: rest => rest.foldl (fun m row => max m row.length) r.length

/-- Embedding of the padding loop of lines 144 to 150 of the source. -/
def pad_rows (data : List (List String)) (n : Nat) : List (List String) :=
  data.map (fun row =>
    if row.length < n then row ++ List.replicate (n - row.length) ("") else row)

/-- Rendering of one table line, lines 195, 209 and 224 of the source:
cells joined by the fixed separator, then the row terminator. -/
def renderRow (row : List String) : String :=
  (" & ").intercalate row ++ (" \\\\\n")

/-- All header and data lines emitted into the table body (the header
block is written twice by the source with identical content; one copy is
kept here). -/
def bodyLines (padded : List (List String)) (header_lines : Nat) : List String :=
  (headerRows padded header_lines).map renderRow ++
    ((padded.drop header_lines).map (fun row => row.map escape_latex)).map renderRow

/-- Embedding of the encoding retry loop of lines 117 to 128 of the
source.  Each element of the list is the outcome of one candidate
encoding: an exception message, or the decoded list of rows.  The
accumulator mirrors the data variable: unchanged on an exception,
reassigned on a successful decode, and the loop breaks on the first
nonempty decode. -/
def readLoop : List (Except String (List (List String))) → List (List String) →
    List (List String)
  | [], data => data
  | Except.error _ :: rest, data => readLoop rest data
  | Except.ok d :: rest, _ => if d.isEmpty then readLoop rest d else d

/-- Embedding of the control flow of csv_to_latex_table, lines 99 to 237
of the source.  File reads, the output write and printing are abstracted:
reads lists the outcome of each candidate encoding, write is the outcome
of opening and writing the output file, and the returned list holds the
diagnostic messages printed on the failure paths. -/
def csv_to_latex_table (reads : List (Except String (List (List String))))
    (header_lines : Nat) (write : Except String Unit) : Bool × List String :=
  let data := readLoop reads []
  if data.isEmpty then
    (false, ["Error: Could not read CSV data"])
  else if data.length < header_lines then
    (false, ["Error: Not enough rows for " ++ toString header_lines ++ " header lines"])
  else
    match write with
    | Except.ok _ => (true, [])
    | Except.error e => (false, ["Error writing LaTeX: " ++ e])

/-! Helper lemmas about list indexing through drop. -/

theorem drop_cons_lt {α : Type} {row : List α} {i : Nat} {c : α} {rest : List α}
    (h : row.drop i = c :: rest) : i < row.length := by
  have h2 := congrArg List.length h
  rw [List.length_drop] at h2
  simp only [List.length_cons] at h2
  omega

theorem drop_cons_getD {α : Type} (d : α) :
    ∀ (row : List α) (i : Nat) (c : α) (rest : List α),
    row.drop i = c :: rest → row.getD i d = c := by
  intro row
  induction row with
  | nil => intro i c rest h; simp at h
  | cons x xs ih =>
    intro i c rest h
    cases i with
    | zero =>
      simp only [List.drop_zero] at h
      rw [List.cons.injEq] at h
      simp [List.getD_cons_zero, h.1]
    | succ n =>
      simp only [List.drop_succ_cons] at h
      simpa only [List.getD_cons_succ] using ih n c rest h

theorem drop_cons_succ {α : Type} :
    ∀ (row : List α) (i : Nat) (c : α) (rest : List α),
    row.drop i = c :: rest → row.drop (i + 1) = rest := by
  intro row
  induction row with
  | nil => intro i c rest h; simp at h
  | cons x xs ih =>
    intro i c rest h
    cases i with
    | zero =>
      simp only [List.drop_zero] at h
      rw [List.cons.injEq] at h
      simpa only [List.drop_succ_cons, List.drop_zero] using h.2
    | succ n =>
      simp only [List.drop_succ_cons] at h ⊢
      exact ih n c rest h

/-- Every index covered by a range that findRuns emits points at a blank
cell of the row: the scan opens a run only at a blank cell and closes it
before the populated cell that ends it. -/
theorem findRuns_blank :
    ∀ (cells row : List String) (i : Nat) (st : Option Nat),
    row.drop i = cells →
    (∀ s0, st = some s0 → s0 < i) →
    (∀ s0, st = some s0 → ∀ j, s0 ≤ j → j < i →
      isPopulated (row.getD j ("")) = false) →
    ∀ s e, (s, e) ∈ findRuns cells i st →
    ∀ k, s ≤ k → k ≤ e → k < row.length →
    isPopulated (row.getD k ("")) = false := by
  intro cells
  induction cells with
  | nil =>
    intro row i st hdrop hlt hblank s e hmem k hsk hke hk
    cases st with
    | none => simp [findRuns] at hmem
    | some s0 =>
      simp only [findRuns, List.mem_singleton, Prod.mk.injEq] at hmem
      obtain ⟨hs, he⟩ := hmem
      subst hs; subst he
      have h1 : s < i := hlt s rfl
      exact hblank s rfl k hsk (by omega)
  | cons c rest ih =>
    intro row i st hdrop hlt hblank s e hmem k hsk hke hk
    have hdrop2 := drop_cons_succ row i c rest hdrop
    have hgetD := drop_cons_getD ("") row i c rest hdrop
    cases hpop : isPopulated c with
    | true =>
      cases st with
      | none =>
        rw [findRuns, if_pos hpop] at hmem
        exact ih row (i + 1) none hdrop2 (fun s0 h => Option.noConfusion h)
          (fun s0 h => Option.noConfusion h) s e hmem k hsk hke hk
      | some s0 =>
        rw [findRuns, if_pos hpop] at hmem
        rw [List.mem_cons] at hmem
        cases hmem with
        | inl hhd =>
          rw [Prod.mk.injEq] at hhd
          obtain ⟨hs, he⟩ := hhd
          subst hs; subst he
          have h1 : s < i := hlt s rfl
          exact hblank s rfl k hsk (by omega)
        | inr htl =>
          exact ih row (i + 1) none hdrop2 (fun s0 h => Option.noConfusion h)
            (fun s0 h => Option.noConfusion h) s e htl k hsk hke hk
    | false =>
      cases st with
      | none =>
        rw [findRuns, if_neg (by simp [hpop])] at hmem
        refine ih row (i + 1) (some i) hdrop2 ?_ ?_ s e hmem k hsk hke hk
        · intro s0 h
          rw [Option.some.injEq] at h
          omega
        · intro s0 h j hj1 hj2
          rw [Option.some.injEq] at h
          have hji : j = i := by omega
          rw [hji, hgetD]
          exact hpop
      | some s0 =>
        rw [findRuns, if_neg (by simp [hpop])] at hmem
        refine ih row (i + 1) (some s0) hdrop2 ?_ ?_ s e hmem k hsk hke hk
        · intro s1 h
          rw [Option.some.injEq] at h
          have := hlt s0 rfl
          omega
        · intro s1 h j hj1 hj2
          rw [Option.some.injEq] at h
          subst h
          rcases Nat.lt_or_ge j i with hji | hji
          · exact hblank s0 rfl j hj1 hji
          · have hji2 : j = i := by omega
            rw [hji2, hgetD]
            exact hpop

/-- When no range of sr covers a populated index of the row, the cell
loop reduces to the blank-to-empty map. -/
theorem processCells_eq_map :
    ∀ (cells row : List String) (sr : List (Nat × Nat))
    (prev : Option (List String)) (i : Nat),
    row.drop i = cells →
    (∀ s e, (s, e) ∈ sr → ∀ k, s ≤ k → k ≤ e → k < row.length →
      isPopulated (row.getD k ("")) = false) →
    processCells sr prev i cells = cells.map blankToEmpty := by
  intro cells
  induction cells with
  | nil => intro row sr prev i hdrop hsr; simp [processCells]
  | cons c rest ih =>
    intro row sr prev i hdrop hsr
    have htail := ih row sr prev (i + 1) (drop_cons_succ row i c rest hdrop) hsr
    cases hpop : isPopulated c with
    | false => simp [processCells, hpop, blankToEmpty, htail]
    | true =>
      have hany : sr.any (insideRange i) = false := by
        cases ha : sr.any (insideRange i) with
        | false => rfl
        | true =>
          exfalso
          rw [List.any_eq_true] at ha
          obtain ⟨r, hr, hir⟩ := ha
          obtain ⟨s, e⟩ := r
          unfold insideRange at hir
          simp only [Bool.and_eq_true, decide_eq_true_eq] at hir
          have hblank := hsr s e hr i hir.1 hir.2 (drop_cons_lt hdrop)
          rw [drop_cons_getD ("") row i c rest hdrop, hpop] at hblank
          exact Bool.true_eq_false.mp hblank
      simp [processCells, hpop, hany, blankToEmpty, htail]

/-- Core fact about the header formatter: whatever the previous row is,
the output is the row with every blank cell replaced by the empty string
and every populated cell kept; in particular no partial separator string
is ever inserted and the length is preserved. -/
theorem process_header_row_eq_map (row : List String) (prev : Option (List String)) :
    process_header_row row prev = row.map blankToEmpty := by
  unfold process_header_row
  refine processCells_eq_map row row (findRuns row 0 none) prev 0 (List.drop_zero row) ?_
  intro s e hmem k hsk hke hk
  exact findRuns_blank row row 0 none (List.drop_zero row)
    (fun s0 h => Option.noConfusion h) (fun s0 h => Option.noConfusion h)
    s e hmem k hsk hke hk

/-- The threaded prev argument is irrelevant to the header loop output,
so the loop of the source and the spec-worded loop agree. -/
theorem headerRowsAux_eq_spec :
    ∀ (rows : List (List String)) (p q : Option (List String)),
    headerRowsAux rows p = headerRowsSpecAux rows q := by
  intro rows
  induction rows with
  | nil => intro p q; rfl
  | cons r rest ih =>
    intro p q
    show process_header_row (r.map escape_latex) p ::
        headerRowsAux rest (some (process_header_row (r.map escape_latex) p)) =
      process_header_row (r.map escape_latex) q ::
        headerRowsSpecAux rest (some (r.map escape_latex))
    rw [process_header_row_eq_map (r.map escape_latex) p,
      process_header_row_eq_map (r.map escape_latex) q]
    exact congrArg _ (ih _ _)

/-! Helper lemmas for the column count invariant. -/

theorem foldl_max_init_le :
    ∀ (l : List (List String)) (a : Nat),
    a ≤ l.foldl (fun m row => max m row.length) a := by
  intro l
  induction l with
  | nil => intro a; exact Nat.le_refl a
  | cons x xs ih =>
    intro a
    simp only [List.foldl_cons]
    exact Nat.le_trans (Nat.le_max_left a x.length) (ih (max a x.length))

theorem foldl_max_mem_le :
    ∀ (l : List (List String)) (a : Nat) (r : List String),
    r ∈ l → r.length ≤ l.foldl (fun m row => max m row.length) a := by
  intro l
  induction l with
  | nil => intro a r h; exact absurd h (List.not_mem_nil r)
  | cons x xs ih =>
    intro a r h
    simp only [List.foldl_cons]
    rw [List.mem_cons] at h
    cases h with
    | inl heq =>
      rw [heq]
      exact Nat.le_trans (Nat.le_max_right a x.length) (foldl_max_init_le xs (max a x.length))
    | inr h2 => exact ih (max a x.length) r h2

theorem mem_le_ncolsOf (data : List (List String)) (r : List String)
    (h : r ∈ data) : r.length ≤ ncolsOf data := by
  cases data with
  | nil => exact absurd h (List.not_mem_nil r)
  | cons x xs =>
    rw [List.mem_cons] at h
    cases h with
    | inl heq =>
      rw [heq]
      exact foldl_max_init_le xs x.length
    | inr h2 => exact foldl_max_mem_le xs x.length r h2

theorem pad_rows_length (data : List (List String)) (n : Nat)
    (hmax : ∀ r ∈ data, r.length ≤ n) :
    ∀ row ∈ pad_rows data n, row.length = n := by
  intro row hrow
  unfold pad_rows at hrow
  rw [List.mem_map] at hrow
  obtain ⟨r, hr, heq⟩ := hrow
  subst heq
  have hle := hmax r hr
  by_cases hlt : r.length < n
  · rw [if_pos hlt]
    simp only [List.length_append, List.length_replicate]
    omega
  · rw [if_neg hlt]
    omega

theorem headerRowsAux_mem_length :
    ∀ (rows : List (List String)) (prev : Option (List String)) (h : List String),
    h ∈ headerRowsAux rows prev → ∃ r ∈ rows, h.length = r.length := by
  intro rows
  induction rows with
  | nil => intro prev h hmem; simp [headerRowsAux] at hmem
  | cons r rest ih =>
    intro prev h hmem
    have hmem2 : h ∈ process_header_row (r.map escape_latex) prev ::
        headerRowsAux rest (some (process_header_row (r.map escape_latex) prev)) := hmem
    rw [List.mem_cons] at hmem2
    cases hmem2 with
    | inl hhd =>
      refine ⟨r, List.mem_cons_self r rest, ?_⟩
      rw [hhd, process_header_row_eq_map, List.length_map, List.length_map]
    | inr htl =>
      obtain ⟨r2, hr2, hlen⟩ := ih _ h htl
      exact ⟨r2, List.mem_cons_of_mem r hr2, hlen⟩

/-- The accumulator form of the encoding retry loop returns the empty
table exactly when no attempt decodes a nonempty table. -/
theorem readLoop_nil_iff :
    ∀ (reads : List (Except String (List (List String)))),
    (readLoop reads [] = [] ↔ ∀ d, Except.ok d ∈ reads → d = []) := by
  intro reads
  induction reads with
  | nil => simp [readLoop]
  | cons a rest ih =>
    cases a with
    | error e =>
      simp only [readLoop]
      rw [ih]
      constructor
      · intro h d hd
        cases hd with
        | tail _ h2 => exact h d h2
      · intro h d hd
        exact h d (List.mem_cons_of_mem _ hd)
    | ok d0 =>
      cases hd0 : d0.isEmpty with
      | true =>
        have hnil : d0 = [] := by
          cases d0 with
          | nil => rfl
          | cons y ys => simp [List.isEmpty] at hd0
        subst hnil
        simp only [readLoop, List.isEmpty_nil, if_true]
        rw [ih]
        constructor
        · intro h d hd
          cases hd with
          | head => rfl
          | tail _ h2 => exact h d h2
        · intro h d hd
          exact h d (List.mem_cons_of_mem _ hd)
      | false =>
        have hne : d0 ≠ [] := by
          intro hh
          subst hh
          simp [List.isEmpty] at hd0
        simp only [readLoop, hd0, if_false]
        constructor
        · intro h
          exact absurd h hne
        · intro h
          exact absurd (h d0 (List.mem_cons_self _ _)) hne

/-! Theorems for the claims. -/

/-- C1: the spec asserts that a populated cell lying inside a subgroup
range whose same-column previous cell is blank gets a cmidrule
directive prepended.  On the code the trigger is unreachable: the ranges
computed by the scan cover only blank cells, so the membership test is
false at every populated index, for every row and independently of any
previous row, and the directive of the spec is never emitted. -/
theorem populated_cell_never_in_subgroup (row : List String) (i : Nat)
    (h1 : i < row.length) (h2 : isPopulated (row.getD i ("")) = true) :
    (findRuns row 0 none).all (fun r => !insideRange i r) = true := by
  rw [List.all_eq_true]
  intro r hr
  cases hir : insideRange i r with
  | false => simp [hir]
  | true =>
    exfalso
    obtain ⟨s, e⟩ := r
    unfold insideRange at hir
    simp only [Bool.and_eq_true, decide_eq_true_eq] at hir
    have hblank := findRuns_blank row row 0 none (List.drop_zero row)
      (fun s0 h => Option.noConfusion h) (fun s0 h => Option.noConfusion h)
      s e hr i hir.1 hir.2 h1
    rw [h2] at hblank
    exact Bool.true_eq_false.mp hblank

theorem populated_cell_never_in_subgroup_witness :
    (3 < (["A", "", "", "B"] : List String).length ∧
      isPopulated ((["A", "", "", "B"] : List String).getD 3 ("")) = true) ∧
    (findRuns ["A", "", "", "B"] 0 none).all (fun r => !insideRange 3 r) = true :=
  ⟨⟨by decide, by decide⟩,
    populated_cell_never_in_subgroup ["A", "", "", "B"] 3 (by decide) (by decide)⟩

/-- C2: evaluating process_header_row on the row A, blank, blank, B with
no previous row.  The spec expects the cell at index 3 to carry a
cmidrule directive over columns 2 to 3; the code returns the row with
blanks emptied and no directive anywhere. -/
theorem header_example_no_directive_emitted :
    process_header_row ["A", "", "", "B"] none = ["A", "", "", "B"] := by decide

/-- C3: evaluating process_header_row on the row blank, X, Y with a
fully blank previous row.  The spec expects the cell X at index 1 to
carry a cmidrule directive over column 1; the code returns the row with
the blank emptied and no directive anywhere. -/
theorem header_leading_run_no_directive :
    process_header_row ["", "X", "Y"] (some ["", "", ""]) = ["", "X", "Y"] := by decide

/-- C4: for every row and every previous row, process_header_row returns
exactly the row with populated cells unchanged and blank cells replaced
by the empty string, one output element per input cell; the cmidrule
branch never contributes an element. -/
theorem process_header_row_never_adds_cmidrule (row : List String)
    (prev : Option (List String)) :
    process_header_row row prev = row.map blankToEmpty ∧
    (process_header_row row prev).length = row.length := by
  have h := process_header_row_eq_map row prev
  exact ⟨h, by rw [h, List.length_map]⟩

/-- C5: evaluating escape_latex at a backslash input and at an ampersand
input.  The ampersand is escaped once, as the spec claims; but the text
inserted for the backslash does NOT stay intact: the later brace
replacements re-escape its braces, so backslash-x becomes
textbackslash with escaped braces instead of the inserted form. -/
theorem escape_backslash_braces_reescaped :
    escape_latex ("\\x") = ("\\textbackslash\\\x7b\\\x7dx") ∧
    escape_latex ("&") = ("\\&") :=
  ⟨by decide, by decide⟩

/-- C6: any input whose stripped form is one of the sentinel values is
mapped to the em-dash marker, with no further escaping. -/
theorem escape_sentinel_returns_marker (s : String)
    (h : pyStrip s ∈ sentinels) : escape_latex s = ("\\textemdash") := by
  unfold escape_latex
  rw [if_pos h]

theorem escape_sentinel_returns_marker_witness :
    pyStrip ("  NA ") ∈ sentinels ∧ escape_latex ("  NA ") = ("\\textemdash") :=
  ⟨by decide, escape_sentinel_returns_marker ("  NA ") (by decide)⟩

/-- C7: a single slash bypasses all escaping and is returned as a bare
slash, a double slash is treated as missing data, and in general any
input whose stripped form is a single slash comes back as the slash. -/
theorem escape_slash_cases :
    escape_latex ("/") = ("/") ∧ escape_latex ("//") = ("\\textemdash") ∧
    ∀ s, pyStrip s = ("/") → escape_latex s = ("/") := by
  refine ⟨by decide, by decide, ?_⟩
  intro s h
  unfold escape_latex
  rw [h]
  rw [if_neg (by decide), if_pos rfl]

theorem escape_slash_cases_witness :
    pyStrip (" / ") = ("/") ∧ escape_latex (" / ") = ("/") :=
  ⟨by decide, escape_slash_cases.2.2 (" / ") (by decide)⟩

/-- C8: the assembler threads the previously FORMATTED header row as the
prev argument; formatting each header row against the previously ESCAPED
row instead, as the spec words it, produces the same header rows. -/
theorem header_rows_formatted_prev_eq_escaped_prev
    (data : List (List String)) (header_lines : Nat) :
    headerRows data header_lines = headerRowsSpec data header_lines :=
  headerRowsAux_eq_spec (data.take header_lines) none none

/-- C9: with nonempty data, after padding every row has exactly ncols
fields, and every header or data line of the table body is the rendering
of exactly ncols cells joined by the fixed separator. -/
theorem table_pad_and_line_width (data : List (List String)) (header_lines : Nat)
    (_hne : data ≠ []) :
    (∀ row ∈ pad_rows data (ncolsOf data), row.length = ncolsOf data) ∧
    (∀ line ∈ bodyLines (pad_rows data (ncolsOf data)) header_lines,
      ∃ cells, cells.length = ncolsOf data ∧ line = renderRow cells) := by
  have hmax : ∀ r ∈ data, r.length ≤ ncolsOf data :=
    fun r hr => mem_le_ncolsOf data r hr
  have hpad := pad_rows_length data (ncolsOf data) hmax
  refine ⟨hpad, ?_⟩
  intro line hline
  unfold bodyLines at hline
  rw [List.mem_append] at hline
  cases hline with
  | inl hh =>
    rw [List.mem_map] at hh
    obtain ⟨h, hmem, heq⟩ := hh
    obtain ⟨r, hr, hlen⟩ := headerRowsAux_mem_length _ none h hmem
    refine ⟨h, ?_, heq.symm⟩
    rw [hlen]
    exact hpad r (List.mem_of_mem_take hr)
  | inr hd =>
    rw [List.mem_map] at hd
    obtain ⟨er, hmem2, heq⟩ := hd
    rw [List.mem_map] at hmem2
    obtain ⟨r, hr, heq2⟩ := hmem2
    refine ⟨er, ?_, heq.symm⟩
    rw [← heq2, List.length_map]
    exact hpad r (List.mem_of_mem_drop hr)

theorem table_pad_and_line_width_witness :
    ([["a"], ["b", "c"]] : List (List String)) ≠ [] ∧
    ((∀ row ∈ pad_rows [["a"], ["b", "c"]] (ncolsOf [["a"], ["b", "c"]]),
        row.length = ncolsOf [["a"], ["b", "c"]]) ∧
      (∀ line ∈ bodyLines (pad_rows [["a"], ["b", "c"]] (ncolsOf [["a"], ["b", "c"]])) 1,
        ∃ cells, cells.length = ncolsOf [["a"], ["b", "c"]] ∧ line = renderRow cells)) :=
  ⟨by decide, table_pad_and_line_width [["a"], ["b", "c"]] 1 (by decide)⟩

/-- C10: the conversion reports failure, with a diagnostic message and
no fault escaping, exactly when no encoding attempt decodes a nonempty
table, or the table has fewer rows than the requested header count, or
the output write fails; otherwise it reports success. -/
theorem conversion_failure_cases (reads : List (Except String (List (List String))))
    (header_lines : Nat) (w : Except String Unit) :
    ((csv_to_latex_table reads header_lines w).1 = false ↔
      ((∀ d, Except.ok d ∈ reads → d = []) ∨
        (readLoop reads []).length < header_lines ∨
        ∃ e, w = Except.error e)) ∧
    ((csv_to_latex_table reads header_lines w).1 = false →
      (csv_to_latex_table reads header_lines w).2 ≠ []) := by
  by_cases hdata : readLoop reads [] = []
  · have hres : csv_to_latex_table reads header_lines w =
        (false, ["Error: Could not read CSV data"]) := by
      simp only [csv_to_latex_table]
      rw [if_pos (by simp [hdata])]
    have hfst : (csv_to_latex_table reads header_lines w).1 = false := by rw [hres]
    have hsnd : (csv_to_latex_table reads header_lines w).2 ≠ [] := by rw [hres]; simp
    exact ⟨iff_of_true hfst (Or.inl ((readLoop_nil_iff reads).mp hdata)), fun _ => hsnd⟩
  · have hdataE : ¬((readLoop reads []).isEmpty = true) := by
      cases hcase : readLoop reads [] with
      | nil => exact absurd hcase hdata
      | cons y ys => simp
    by_cases hlen : (readLoop reads []).length < header_lines
    · have hres : csv_to_latex_table reads header_lines w =
          (false, ["Error: Not enough rows for " ++ toString header_lines ++
            " header lines"]) := by
        simp only [csv_to_latex_table]
        rw [if_neg hdataE, if_pos hlen]
      have hfst : (csv_to_latex_table reads header_lines w).1 = false := by rw [hres]
      have hsnd : (csv_to_latex_table reads header_lines w).2 ≠ [] := by rw [hres]; simp
      exact ⟨iff_of_true hfst (Or.inr (Or.inl hlen)), fun _ => hsnd⟩
    · cases w with
      | ok u =>
        have hres : csv_to_latex_table reads header_lines (Except.ok u) = (true, []) := by
          simp only [csv_to_latex_table]
          rw [if_neg hdataE, if_neg hlen]
        refine ⟨iff_of_false ?_ ?_, ?_⟩
        · rw [hres]
          simp
        · intro hcontra
          rcases hcontra with hc | hc | hc
          · exact hdata ((readLoop_nil_iff reads).mpr hc)
          · exact hlen hc
          · obtain ⟨e, he⟩ := hc
            exact Except.noConfusion he
        · intro hcontra
          rw [hres] at hcontra
          exact absurd hcontra (by simp)
      | error e =>
        have hres : csv_to_latex_table reads header_lines (Except.error e) =
            (false, ["Error writing LaTeX: " ++ e]) := by
          simp only [csv_to_latex_table]
          rw [if_neg hdataE, if_neg hlen]
        have hfst : (csv_to_latex_table reads header_lines (Except.error e)).1 = false := by
          rw [hres]
        have hsnd : (csv_to_latex_table reads header_lines (Except.error e)).2 ≠ [] := by
          rw [hres]; simp
        exact ⟨iff_of_true hfst (Or.inr (Or.inr ⟨e, rfl⟩)), fun _ => hsnd⟩

theorem conversion_failure_cases_witness :
    (csv_to_latex_table [Except.error ("boom")] 0 (Except.ok ())).1 = false ∧
    (csv_to_latex_table [Except.error ("boom")] 0 (Except.ok ())).2 ≠ [] := by
  have h := conversion_failure_cases [Except.error ("boom")] 0 (Except.ok ())
  have hf : (csv_to_latex_table [Except.error ("boom")] 0 (Except.ok ())).1 = false := by
    refine h.1.mpr (Or.inl ?_)
    intro d hd
    cases hd with
    | tail _ h2 => exact absurd h2 (List.not_mem_nil _)
  exact ⟨hf, h.2 hf⟩

end Csv2Latex
